import Mathlib

/-!
Verification development for the kdapi scraping pipeline (src/src/scraper.ts).

The embedding below translates the pipeline functions of scraper.ts into Lean:

* mergeProfiles (scraper.ts lines 1350-1372): the merge/dedup engine;
* the rate-limiter token bucket (lines 180-202);
* fetchWithRetry (lines 204-270) over an abstract network oracle;
* parseProfileWithCache (lines 272-291) over an association-list cache
  (CacheManager from src/src/cache.ts, with reads and writes succeeding);
* the batch loop of scrapeProfiles (lines 1596-1607);
* the URL-filtering plans of processIncrementalScraping (lines 1227-1263)
  and runProductionMode (lines 1265-1348).

Profiles are records of an id, a profileUrl and an abstract payload; the
pipeline never inspects the payload, so it is a type parameter here.
-/

namespace KD

/-- Profile record as seen by the merge engine: a stable id, the profileUrl
that produced it, and an abstract payload (the extracted fields). -/
structure Profile (α : Type) where
  id : String
  profileUrl : String
  payload : α
deriving DecidableEq, Repr

variable {α : Type}

/-- List of profileUrl fields of a collection. -/
def profileUrls (l : List (Profile α)) : List String :=
  l.map Profile.profileUrl

/-- List of id fields of a collection. -/
def profileIds (l : List (Profile α)) : List String :=
  l.map Profile.id

/-- Last element of l whose profileUrl equals u.  A JavaScript Map built by
iterating a list keeps, for each key, the value of the last entry, so this
is the lookup realised by new Map(existing.map(p => [p.profileUrl, p.id])). -/
def lastMatch (l : List (Profile α)) (u : String) : Option (Profile α) :=
  l.reverse.find? (fun p => p.profileUrl == u)

/-- Translation of the urlToId map of mergeProfiles (scraper.ts line 1355):
maps a url to the id of the last existing entry carrying it. -/
def urlToId (existing : List (Profile α)) (u : String) : Option String :=
  (lastMatch existing u).map Profile.id

/-- One iteration of the forEach body of mergeProfiles (scraper.ts lines
1357-1369).  The JavaScript test if (existingId) is falsy both for undefined
(url absent from the map) and for the empty string, hence the explicit
comparison with the empty string below.  The lookup is fixed once from the
original existing list and is never extended during the loop, exactly as in
the source. -/
def mergeStep (lookup : String → Option String) (merged : List (Profile α))
    (profile : Profile α) : List (Profile α) :=
  match lookup profile.profileUrl with
  | some existingId =>
    if existingId ≠ "" then
      match merged.findIdx? (fun p => p.id == existingId) with
      | some index => merged.set index { profile with id := existingId }
      | none => merged
    else
      merged ++ [profile]
  | none => merged ++ [profile]

/-- Translation of mergeProfiles (scraper.ts lines 1350-1372). -/
def mergeProfiles (existing newProfiles : List (Profile α)) : List (Profile α) :=
  newProfiles.foldl (mergeStep (urlToId existing)) existing

/-- Well-formed collection: pairwise distinct profileUrls, pairwise distinct
ids, and no empty-string id.  Collections produced by the scraper satisfy
this (ids are freshly generated UUIDs). -/
def WFColl (l : List (Profile α)) : Prop :=
  l.Pairwise (fun p q => p.profileUrl ≠ q.profileUrl) ∧
  l.Pairwise (fun p q => p.id ≠ q.id) ∧
  ∀ p ∈ l, p.id ≠ ""

/-- A url on which the lookup of mergeStep is falsy: either absent from the
existing collection or mapped to the empty-string id. -/
def isFreshUrl (existing : List (Profile α)) (u : String) : Bool :=
  match urlToId existing u with
  | some i => i == ""
  | none => true

/-- The new records that the merge loop appends (its push branch). -/
def freshRecords (existing ns : List (Profile α)) : List (Profile α) :=
  ns.filter (fun r => isFreshUrl existing r.profileUrl)

/-- How the merge loop rewrites one pre-existing entry: the entry that is the
last carrier of its url (and has a non-empty id) receives the payload of the
last new record with that url while keeping its id; every other entry is
left alone. -/
def frameUpd [DecidableEq α] (existing ns : List (Profile α)) (p : Profile α) : Profile α :=
  if lastMatch existing p.profileUrl = some p ∧ p.id ≠ "" then
    match lastMatch ns p.profileUrl with
    | some r => { r with id := p.id }
    | none => p
  else p

/-- First entry with the given url, and its id; used to express identity
stability across merges. -/
def idOf (l : List (Profile α)) (u : String) : Option String :=
  (l.find? (fun p => p.profileUrl == u)).map Profile.id

/-- Entries of a collection carrying a given url. -/
def entriesFor (l : List (Profile α)) (u : String) : List (Profile α) :=
  l.filter (fun p => p.profileUrl == u)

/-- Conditions on a batch of new records under which a merge preserves
collection well-formedness: distinct urls, distinct non-empty ids, and ids
disjoint from the current collection (freshly generated UUIDs satisfy
this). -/
def BatchOK (existing ns : List (Profile α)) : Prop :=
  ns.Pairwise (fun p q => p.profileUrl ≠ q.profileUrl) ∧
  ns.Pairwise (fun p q => p.id ≠ q.id) ∧
  (∀ r ∈ ns, r.id ≠ "") ∧
  (∀ r ∈ ns, r.id ∉ profileIds existing)

/-- Iterated merging, one batch after another, as performed by successive
runs of the scraper over the same persisted collection. -/
def mergeMany (existing : List (Profile α)) (batches : List (List (Profile α))) :
    List (Profile α) :=
  batches.foldl mergeProfiles existing

/-- Every batch in the sequence satisfies BatchOK relative to the collection
at the time it is merged. -/
def ChainOK : List (Profile α) → List (List (Profile α)) → Prop
  | _, [] => True
  | e, ns :: rest => BatchOK e ns ∧ ChainOK (mergeProfiles e ns) rest

/-! Configuration constants of the scraper (scraper.ts lines 44-56).
Durations are rationals since backoff computations produce non-integer
millisecond values. -/

namespace CONFIG

def retryAttempts : Nat := 5

def retryDelay : ℚ := 2000

def rateLimitDelay : ℚ := 2000

def maxRequestsPerMinute : ℚ := 30

def concurrentRequests : Nat := 5

end CONFIG

/-- Token refill rate of the rate limiter in tokens per millisecond
(scraper.ts line 183). -/
def refillRate : ℚ := CONFIG.maxRequestsPerMinute / 60000

/-- Token recomputation performed at the top of rateLimiter.getToken
(scraper.ts lines 186-192): refill proportional to elapsed time, clamped at
capacity. -/
def refillTokens (tokens elapsed : ℚ) : ℚ :=
  min CONFIG.maxRequestsPerMinute (tokens + elapsed * refillRate)

/-- One call to rateLimiter.getToken (scraper.ts lines 185-201).  The list
holds the elapsed wall-clock time observed at each entry into the function:
the head for the initial call, the tail for the recursive re-evaluations
performed after waiting.  Returns the token balance after the debit, or
none when the supplied observation list is exhausted before a token became
available (the source would keep waiting). -/
def getToken : List ℚ → ℚ → Option ℚ
  | [], _ => none
  | e :: rest, tokens =>
    let t := refillTokens tokens e
    if t < 1 then getToken rest t
    else some (t - 1)

/-- Every token balance the limiter state passes through during one getToken
call: each post-refill value and the final post-debit value. -/
def getTokenStates : List ℚ → ℚ → List ℚ
  | [], _ => []
  | e :: rest, tokens =>
    let t := refillTokens tokens e
    if t < 1 then t :: getTokenStates rest t
    else [t, t - 1]

/-- A sequence of getToken calls, each with its own observation list,
threading the token balance through. -/
def acquireSeq : List (List ℚ) → ℚ → Option ℚ
  | [], tokens => some tokens
  | es :: rest, tokens =>
    match getToken es tokens with
    | some t => acquireSeq rest t
    | none => none

/-- Backoff delay before retry attempt number k (scraper.ts line 212); the
same formula with the failure count appears in shouldRetry (lines 95-98). -/
def backoffDelay (attempt : Nat) : ℚ :=
  min (CONFIG.retryDelay * (3 / 2) ^ attempt) 30000

/-- Observable features of a fetched response body that fetchWithRetry
inspects (scraper.ts line 250): its length and whether it contains the
Too Many Requests marker. -/
structure Body where
  len : Nat
  tooManyRequests : Bool
deriving DecidableEq, Repr

/-- Outcome of one network fetch, supplied by an oracle indexed by the
running fetch count: an HTTP response (status, optional Retry-After header
in seconds, body) or a transport/timeout failure. -/
inductive NetOutcome
  | response (status : Nat) (retryAfter : Option Nat) (body : Body)
  | netError
deriving DecidableEq, Repr

/-- Typed rendering of the errors fetchWithRetry can throw. -/
inductive FetchError
  | httpError (status : Nat)
  | invalidResponse
  | transportError
  | maxAttemptsReached
deriving DecidableEq, Repr

/-- Effects performed so far: rate-limiter acquisitions, network fetches,
and the waits (in milliseconds) executed in order. -/
structure Trace where
  tokensAcquired : Nat
  fetches : Nat
  delays : List ℚ
deriving DecidableEq, Repr

/-- Translation of the while loop of fetchWithRetry (scraper.ts lines
208-267).  The loop condition attempt < maxAttempts is kept verbatim; fuel
equals maxAttempts - attempt at every call site (every iteration that does
not return increments attempt) and only drives the structural recursion.
The oracle maps the running fetch count to the outcome of that fetch. -/
def fetchGo (oracle : Nat → NetOutcome) (maxAttempts : Nat) :
    Nat → Nat → Trace → (Except FetchError Body) × Trace
  | 0, _, tr => (Except.error FetchError.maxAttemptsReached, tr)
  | fuel + 1, attempt, tr =>
    if attempt < maxAttempts then
      -- loop-top backoff wait on every retry iteration, then getToken, then
      -- the fetch itself: every iteration acquires one token and performs
      -- one network fetch
      let delays1 := if 0 < attempt then tr.delays ++ [backoffDelay attempt] else tr.delays
      match oracle tr.fetches with
      | NetOutcome.netError =>
        if maxAttempts ≤ attempt + 1 then
          (Except.error FetchError.transportError,
            ⟨tr.tokensAcquired + 1, tr.fetches + 1, delays1⟩)
        else
          fetchGo oracle maxAttempts fuel (attempt + 1)
            ⟨tr.tokensAcquired + 1, tr.fetches + 1, delays1⟩
      | NetOutcome.response status retryAfter body =>
        if status == 429 then
          let d : ℚ := match retryAfter with
            | some ra => (ra : ℚ) * 1000
            | none => CONFIG.retryDelay * (3 / 2) ^ (attempt + 1)
          fetchGo oracle maxAttempts fuel (attempt + 1)
            ⟨tr.tokensAcquired + 1, tr.fetches + 1, delays1 ++ [d]⟩
        else if ¬ (200 ≤ status ∧ status ≤ 299) then
          if maxAttempts ≤ attempt + 1 then
            (Except.error (FetchError.httpError status),
              ⟨tr.tokensAcquired + 1, tr.fetches + 1, delays1⟩)
          else
            fetchGo oracle maxAttempts fuel (attempt + 1)
              ⟨tr.tokensAcquired + 1, tr.fetches + 1, delays1⟩
        else if body.len < 500 ∨ body.tooManyRequests then
          if maxAttempts ≤ attempt + 1 then
            (Except.error FetchError.invalidResponse,
              ⟨tr.tokensAcquired + 1, tr.fetches + 1, delays1⟩)
          else
            fetchGo oracle maxAttempts fuel (attempt + 1)
              ⟨tr.tokensAcquired + 1, tr.fetches + 1, delays1⟩
        else
          (Except.ok body, ⟨tr.tokensAcquired + 1, tr.fetches + 1, delays1⟩)
    else (Except.error FetchError.maxAttemptsReached, tr)

/-- Translation of fetchWithRetry (scraper.ts lines 204-270), entered with
attempt = 0 and maxAttempts = CONFIG.retryAttempts. -/
def fetchWithRetry (oracle : Nat → NetOutcome) (tr : Trace) :
    (Except FetchError Body) × Trace :=
  fetchGo oracle CONFIG.retryAttempts CONFIG.retryAttempts 0 tr

/-- The on-disk content cache (CacheManager, src/src/cache.ts) as an
association list keyed by category and url; the md5 key derivation of the
source is treated as injective on urls, and reads and writes succeed. -/
structure CacheStore where
  entries : List ((String × String) × Body)
deriving DecidableEq, Repr

/-- CacheManager.get (cache.ts lines 30-42). -/
def cacheGet (c : CacheStore) (category url : String) : Option Body :=
  (c.entries.find? (fun e => e.1 == (category, url))).map Prod.snd

/-- CacheManager.set (cache.ts lines 44-53). -/
def cacheSet (c : CacheStore) (category url : String) (body : Body) : CacheStore :=
  ⟨((category, url), body) :: c.entries⟩

/-- Cache plus effect trace: the state threaded through the fetch
orchestrator. -/
structure World where
  cache : CacheStore
  trace : Trace
deriving DecidableEq, Repr

/-- Translation of parseProfileWithCache (scraper.ts lines 272-291): with
forceRefresh unset, a cache hit returns immediately; otherwise the document
is fetched through fetchWithRetry and, on success, stored in the cache. -/
def parseProfileWithCache (oracle : Nat → NetOutcome) (w : World)
    (category url : String) (forceRefresh : Bool) :
    (Except FetchError Body) × World :=
  match (if forceRefresh then none else cacheGet w.cache category url) with
  | some cached => (Except.ok cached, w)
  | none =>
    match fetchWithRetry oracle w.trace with
    | (Except.ok body, tr) =>
      (Except.ok body, { cache := cacheSet w.cache category url body, trace := tr })
    | (Except.error e, tr) => (Except.error e, { w with trace := tr })

/-- Recursion core of chunks, structurally recursive on a fuel argument
that starts at the list length; every step consumes at least one element
when batchSize is positive, so the fuel never runs out on the calls made by
chunks. -/
def chunksGo {β : Type} (batchSize : Nat) : Nat → List β → List (List β)
  | _, [] => []
  | 0, _ :: _ => []
  | fuel + 1, x :: xs =>
    match batchSize with
    | 0 => []
    | b + 1 => (x :: xs).take (b + 1) :: chunksGo batchSize fuel ((x :: xs).drop (b + 1))

/-- Consecutive chunks taken by the batch loop header
for (let i = 0; i < urls.length; i += batchSize) (scraper.ts line 1596).
A batchSize of zero would loop forever in the source; it yields no chunks
here and is excluded by hypothesis in the theorems. -/
def chunks {β : Type} (batchSize : Nat) (urls : List β) : List (List β) :=
  chunksGo batchSize urls.length urls

/-- The batch loop of scrapeProfiles (scraper.ts lines 1596-1607): per
chunk, every url is processed (processUrl returns none when a fetch or
extraction error was caught, lines 1574-1593), the non-null results are
appended, and the loop then always pauses for CONFIG.rateLimitDelay.
Returns the collected results together with the number of inter-batch
pauses performed. -/
def batchLoop (outcome : String → Option (Profile α)) (batchSize : Nat)
    (urls : List String) : List (Profile α) × Nat :=
  (chunks batchSize urls).foldl
    (fun acc batch => (acc.1 ++ batch.filterMap outcome, acc.2 + 1))
    ([], 0)

set_option linter.unusedVariables false

/-- Fetch plan of scrapeProfiles (scraper.ts lines 1517-1545, 1574-1598):
urls whose profileUrl is already in the dataset on disk are filtered out
and each remaining url is routed through parseProfileWithCache with
forceRefresh = !useCache.  Each planned fetch is the url paired with the
forceRefresh flag used for it. -/
def scrapeProfilesPlan (processedUrls : List String) (urls : List String)
    (useCache : Bool) : List (String × Bool) :=
  (urls.filter (fun u => !processedUrls.contains u)).map (fun u => (u, !useCache))

/-- Fetch plan of processIncrementalScraping (scraper.ts lines 1227-1263):
discovered urls already present in the loaded dataset are removed, then
scrapeProfiles is always invoked with useCache = true. -/
def processIncrementalScrapingPlan (existingUrls processedUrls discovered : List String) :
    List (String × Bool) :=
  scrapeProfilesPlan processedUrls
    (discovered.filter (fun u => !existingUrls.contains u)) true

/-- Fetch plan of one category of runProductionMode (scraper.ts lines
1265-1348): the body reads options.delayBetweenBatches only; the
forceRefresh option received from the CLI --force flag is never read, and
processIncrementalScraping is called unconditionally. -/
def runProductionModePlan (datasetUrls processedUrls discovered : List String)
    (forceRefresh : Bool) : List (String × Bool) :=
  processIncrementalScrapingPlan datasetUrls processedUrls discovered

set_option linter.unusedVariables true

section MergeLemmas

set_option linter.unusedSectionVars false

variable [DecidableEq α]

theorem findIdx?_spot {β : Type} (p : β → Bool) (A : List β) (e : β) (rest : List β)
    (hA : ∀ x ∈ A, p x = false) (he : p e = true) (i : Nat) :
    List.findIdx? p (A ++ e :: rest) i = some (i + A.length) := by
  induction A generalizing i with
  | nil => simp [List.findIdx?_cons, he]
  | cons a as ih =>
    have ha : p a = false := hA a (by simp)
    have := ih (fun x hx => hA x (by simp [hx])) (i + 1)
    simp only [List.cons_append, List.findIdx?_cons, ha, Bool.false_eq_true, if_false, this,
      List.length_cons]
    congr 1
    omega

theorem set_spot {β : Type} (A : List β) (e : β) (rest : List β) (v : β) :
    (A ++ e :: rest).set A.length v = A ++ v :: rest := by
  induction A with
  | nil => simp
  | cons a as ih => simp [List.set_cons_succ, ih]

theorem lastMatch_nil (u : String) : lastMatch ([] : List (Profile α)) u = none := rfl

theorem lastMatch_none_iff (l : List (Profile α)) (u : String) :
    lastMatch l u = none ↔ ∀ p ∈ l, p.profileUrl ≠ u := by
  simp [lastMatch, List.find?_eq_none]

theorem lastMatch_mem {l : List (Profile α)} {u : String} {r : Profile α}
    (h : lastMatch l u = some r) : r ∈ l ∧ r.profileUrl = u := by
  have h1 := List.mem_of_find?_eq_some h
  have h2 := List.find?_some h
  refine ⟨List.mem_reverse.mp h1, ?_⟩
  simpa using h2

theorem lastMatch_snoc (l : List (Profile α)) (r : Profile α) (u : String) :
    lastMatch (l ++ [r]) u = if r.profileUrl == u then some r else lastMatch l u := by
  simp only [lastMatch, List.reverse_append, List.reverse_singleton, List.singleton_append,
    List.find?_cons]
  cases h : (r.profileUrl == u) <;> simp [h]

theorem lastMatch_of_unique {l : List (Profile α)} {p : Profile α}
    (hl : l.Pairwise (fun p q => p.profileUrl ≠ q.profileUrl)) (hp : p ∈ l) :
    lastMatch l p.profileUrl = some p := by
  induction l with
  | nil => cases hp
  | cons a as ih =>
    rcases List.pairwise_cons.mp hl with ⟨ha, has⟩
    rcases List.mem_cons.mp hp with h | h
    · subst h
      have : lastMatch as p.profileUrl = none := by
        rw [lastMatch_none_iff]
        intro q hq
        exact fun hq2 => (ha q hq) hq2.symm
      have hrw : (p :: as).reverse = as.reverse ++ [p] := by simp
      simp only [lastMatch] at this ⊢
      rw [hrw, List.find?_append, this]
      simp
    · have := ih has h
      have hrw : (a :: as).reverse = as.reverse ++ [a] := by simp
      simp only [lastMatch] at this ⊢
      rw [hrw, List.find?_append, this]
      simp

theorem mergeProfiles_nil (existing : List (Profile α)) :
    mergeProfiles existing [] = existing := rfl

theorem mergeProfiles_snoc (existing ns : List (Profile α)) (r : Profile α) :
    mergeProfiles existing (ns ++ [r]) =
      mergeStep (urlToId existing) (mergeProfiles existing ns) r := by
  simp [mergeProfiles, List.foldl_append]

theorem frameUpd_id (existing ns : List (Profile α)) (p : Profile α) :
    (frameUpd existing ns p).id = p.id := by
  unfold frameUpd
  split
  · split <;> rfl
  · rfl

theorem frameUpd_url (existing ns : List (Profile α)) (p : Profile α) :
    (frameUpd existing ns p).profileUrl = p.profileUrl := by
  unfold frameUpd
  split
  · split
    · next r hr => simpa using (lastMatch_mem hr).2
    · rfl
  · rfl

theorem frameUpd_nil (existing : List (Profile α)) (p : Profile α) :
    frameUpd existing [] p = p := by
  unfold frameUpd
  split
  · simp [lastMatch_nil]
  · rfl

theorem frameUpd_notin (existing ns : List (Profile α)) (p : Profile α)
    (h : p.profileUrl ∉ profileUrls ns) : frameUpd existing ns p = p := by
  have hnone : lastMatch ns p.profileUrl = none := by
    rw [lastMatch_none_iff]
    intro q hq he
    exact h (he ▸ List.mem_map_of_mem Profile.profileUrl hq)
  unfold frameUpd
  split
  · simp [hnone]
  · rfl

theorem frameUpd_not_last (existing ns : List (Profile α)) (p : Profile α)
    (h : lastMatch existing p.profileUrl ≠ some p) : frameUpd existing ns p = p := by
  unfold frameUpd
  rw [if_neg]
  intro hc
  exact h hc.1

theorem frameUpd_empty_id (existing ns : List (Profile α)) (p : Profile α)
    (h : p.id = "") : frameUpd existing ns p = p := by
  unfold frameUpd
  rw [if_neg]
  intro hc
  exact hc.2 h

theorem frameUpd_snoc_ne (existing ns : List (Profile α)) (r p : Profile α)
    (h : p.profileUrl ≠ r.profileUrl) :
    frameUpd existing (ns ++ [r]) p = frameUpd existing ns p := by
  unfold frameUpd
  rw [lastMatch_snoc]
  have : (r.profileUrl == p.profileUrl) = false := by
    simpa using fun he => h he.symm
  rw [this]
  simp

theorem urlToId_none_iff (existing : List (Profile α)) (u : String) :
    urlToId existing u = none ↔ lastMatch existing u = none := by
  unfold urlToId
  cases lastMatch existing u <;> simp

theorem isFreshUrl_none {existing : List (Profile α)} {u : String}
    (h : urlToId existing u = none) : isFreshUrl existing u = true := by
  unfold isFreshUrl
  rw [h]

theorem isFreshUrl_some {existing : List (Profile α)} {u i : String}
    (h : urlToId existing u = some i) : isFreshUrl existing u = (i == "") := by
  unfold isFreshUrl
  rw [h]

theorem freshRecords_snoc (existing ns : List (Profile α)) (r : Profile α) :
    freshRecords existing (ns ++ [r]) =
      freshRecords existing ns ++
        (if isFreshUrl existing r.profileUrl then [r] else []) := by
  unfold freshRecords
  rw [List.filter_append]
  cases h : isFreshUrl existing r.profileUrl <;> simp [List.filter, h]

theorem mergeStep_push {lookup : String → Option String} {L : List (Profile α)}
    {r : Profile α} (h : lookup r.profileUrl = none ∨ lookup r.profileUrl = some "") :
    mergeStep lookup L r = L ++ [r] := by
  unfold mergeStep
  rcases h with h | h <;> simp [h]

theorem mergeStep_replace_found {lookup : String → Option String} {L : List (Profile α)}
    {r : Profile α} {i : String} {index : Nat}
    (h : lookup r.profileUrl = some i) (hi : i ≠ "")
    (hidx : L.findIdx? (fun p => p.id == i) = some index) :
    mergeStep lookup L r = L.set index { r with id := i } := by
  unfold mergeStep
  simp only [h, hidx]
  rw [if_pos hi]

theorem frameUpd_snoc_same (existing ns : List (Profile α)) (r x eU : Profile α)
    (heU : lastMatch existing r.profileUrl = some eU)
    (hx : x.profileUrl = r.profileUrl) (hne : x ≠ eU) :
    frameUpd existing (ns ++ [r]) x = x ∧ frameUpd existing ns x = x := by
  have hlast : lastMatch existing x.profileUrl ≠ some x := by
    rw [hx, heU]
    intro hc
    exact hne (Option.some.inj hc).symm
  exact ⟨frameUpd_not_last _ _ _ hlast, frameUpd_not_last _ _ _ hlast⟩

theorem map_frameUpd_snoc_push (existing ns : List (Profile α)) (r eU : Profile α)
    (heU : lastMatch existing r.profileUrl = some eU) (hid : eU.id = "") :
    existing.map (frameUpd existing (ns ++ [r])) = existing.map (frameUpd existing ns) := by
  apply List.map_congr_left
  intro x hx
  by_cases hxu : x.profileUrl = r.profileUrl
  · by_cases hxe : x = eU
    · subst hxe
      rw [frameUpd_empty_id _ _ _ hid, frameUpd_empty_id _ _ _ hid]
    · obtain ⟨h1, h2⟩ := frameUpd_snoc_same existing ns r x eU heU hxu hxe
      rw [h1, h2]
  · exact frameUpd_snoc_ne existing ns r x hxu

theorem map_frameUpd_snoc_away (existing ns : List (Profile α)) (r eU : Profile α)
    (heU : lastMatch existing r.profileUrl = some eU)
    (L : List (Profile α)) (hL : ∀ x ∈ L, x ≠ eU) :
    L.map (frameUpd existing (ns ++ [r])) = L.map (frameUpd existing ns) := by
  apply List.map_congr_left
  intro x hx
  by_cases hxu : x.profileUrl = r.profileUrl
  · obtain ⟨h1, h2⟩ := frameUpd_snoc_same existing ns r x eU heU hxu (hL x hx)
    rw [h1, h2]
  · exact frameUpd_snoc_ne existing ns r x hxu

theorem frameUpd_snoc_hit (existing ns : List (Profile α)) (r eU : Profile α)
    (heU : lastMatch existing r.profileUrl = some eU) (hne : eU.id ≠ "") :
    frameUpd existing (ns ++ [r]) eU = { r with id := eU.id } := by
  have hurl : eU.profileUrl = r.profileUrl := (lastMatch_mem heU).2
  unfold frameUpd
  rw [if_pos ⟨by rw [hurl]; exact heU, hne⟩, lastMatch_snoc, hurl]
  simp

/-- Closed form of the merge loop: assuming only pairwise-distinct ids in
the existing collection, mergeProfiles rewrites each pre-existing entry by
frameUpd (in place, in order) and appends exactly the records on which the
url lookup was falsy. -/
theorem mergeProfiles_closed (existing ns : List (Profile α))
    (hids : existing.Pairwise (fun p q => p.id ≠ q.id)) :
    mergeProfiles existing ns =
      existing.map (frameUpd existing ns) ++ freshRecords existing ns := by
  induction ns using List.reverseRecOn with
  | nil =>
    rw [mergeProfiles_nil]
    have h1 : existing.map (frameUpd existing []) = existing := by
      rw [List.map_congr_left (fun p _ => frameUpd_nil existing p)]
      exact List.map_id existing
    rw [h1]
    simp [freshRecords]
  | append_singleton ns r ih =>
    rw [mergeProfiles_snoc, ih]
    cases hu : urlToId existing r.profileUrl with
    | none =>
      have hnone : lastMatch existing r.profileUrl = none :=
        (urlToId_none_iff existing r.profileUrl).mp hu
      have hnotin : ∀ x ∈ existing, x.profileUrl ≠ r.profileUrl :=
        (lastMatch_none_iff existing r.profileUrl).mp hnone
      have hmap : existing.map (frameUpd existing (ns ++ [r])) =
          existing.map (frameUpd existing ns) :=
        List.map_congr_left (fun p hp => frameUpd_snoc_ne existing ns r p (hnotin p hp))
      rw [mergeStep_push (Or.inl hu), hmap, freshRecords_snoc, isFreshUrl_none hu]
      simp

    | some i =>
      have hlm : ∃ eU, lastMatch existing r.profileUrl = some eU ∧ eU.id = i := by
        unfold urlToId at hu
        cases hl : lastMatch existing r.profileUrl with
        | none => rw [hl] at hu; exact Option.noConfusion hu
        | some e =>
          rw [hl] at hu
          exact ⟨e, rfl, by simpa using hu⟩
      obtain ⟨eU, heU, hid⟩ := hlm
      have heUmem : eU ∈ existing := (lastMatch_mem heU).1
      have heUurl : eU.profileUrl = r.profileUrl := (lastMatch_mem heU).2
      by_cases hie : i = ""
      · -- empty id: the lookup is falsy in JavaScript, so the record is pushed
        subst hie
        have hmap := map_frameUpd_snoc_push existing ns r eU heU (hid)
        rw [mergeStep_push (Or.inr hu), hmap, freshRecords_snoc, isFreshUrl_some hu]
        simp
      · -- non-empty id: replace the unique entry carrying that id
        obtain ⟨A, B, hE⟩ := List.append_of_mem heUmem
        subst hE
        have hpair := hids
        rw [List.pairwise_append] at hpair
        obtain ⟨hpA, hpEB, hcross⟩ := hpair
        rw [List.pairwise_cons] at hpEB
        obtain ⟨hB, _⟩ := hpEB
        have hAid : ∀ x ∈ A, x.id ≠ eU.id := fun x hx =>
          hcross x hx eU (List.mem_cons_self eU B)
        have hAne : ∀ x ∈ A, x ≠ eU := fun x hx he =>
          (hAid x hx) (congrArg Profile.id he)
        have hBne : ∀ x ∈ B, x ≠ eU := fun x hx he =>
          (hB x hx) (congrArg Profile.id he).symm
        -- compute the findIdx? position: A.length
        have hfind : ((A ++ eU :: B).map (frameUpd (A ++ eU :: B) ns) ++
            freshRecords (A ++ eU :: B) ns).findIdx? (fun p => p.id == i) =
            some A.length := by
          have hshape : (A ++ eU :: B).map (frameUpd (A ++ eU :: B) ns) ++
              freshRecords (A ++ eU :: B) ns =
              A.map (frameUpd (A ++ eU :: B) ns) ++
                (frameUpd (A ++ eU :: B) ns eU ::
                  (B.map (frameUpd (A ++ eU :: B) ns) ++
                    freshRecords (A ++ eU :: B) ns)) := by
            simp [List.map_append]
          rw [hshape]
          have := findIdx?_spot (fun p => p.id == i)
            (A.map (frameUpd (A ++ eU :: B) ns))
            (frameUpd (A ++ eU :: B) ns eU)
            (B.map (frameUpd (A ++ eU :: B) ns) ++ freshRecords (A ++ eU :: B) ns)
            (by
              intro y hy
              obtain ⟨x, hx, hxy⟩ := List.mem_map.mp hy
              subst hxy
              have hxi : x.id ≠ i := hid ▸ hAid x hx
              simp [frameUpd_id, hxi])
            (by simp [frameUpd_id, hid]) 0
          simpa using this
        have hset : ((A ++ eU :: B).map (frameUpd (A ++ eU :: B) ns) ++
            freshRecords (A ++ eU :: B) ns).set A.length { r with id := i } =
            A.map (frameUpd (A ++ eU :: B) ns) ++
              ({ r with id := i } ::
                (B.map (frameUpd (A ++ eU :: B) ns) ++
                  freshRecords (A ++ eU :: B) ns)) := by
          have hshape : (A ++ eU :: B).map (frameUpd (A ++ eU :: B) ns) ++
              freshRecords (A ++ eU :: B) ns =
              A.map (frameUpd (A ++ eU :: B) ns) ++
                (frameUpd (A ++ eU :: B) ns eU ::
                  (B.map (frameUpd (A ++ eU :: B) ns) ++
                    freshRecords (A ++ eU :: B) ns)) := by
            simp [List.map_append]
          rw [hshape]
          have hlen : A.length = (A.map (frameUpd (A ++ eU :: B) ns)).length := by
            simp
          rw [hlen, set_spot]
        rw [mergeStep_replace_found hu hie hfind, hset]
        -- now rewrite the right-hand side in the same shape
        have hmapA : A.map (frameUpd (A ++ eU :: B) (ns ++ [r])) =
            A.map (frameUpd (A ++ eU :: B) ns) :=
          map_frameUpd_snoc_away _ ns r eU heU A hAne
        have hmapB : B.map (frameUpd (A ++ eU :: B) (ns ++ [r])) =
            B.map (frameUpd (A ++ eU :: B) ns) :=
          map_frameUpd_snoc_away _ ns r eU heU B hBne
        have hhit : frameUpd (A ++ eU :: B) (ns ++ [r]) eU = { r with id := i } := by
          rw [frameUpd_snoc_hit _ ns r eU heU (hid ▸ hie), hid]
        have hfresh : freshRecords (A ++ eU :: B) (ns ++ [r]) =
            freshRecords (A ++ eU :: B) ns := by
          rw [freshRecords_snoc, isFreshUrl_some hu]
          have : (i == "") = false := by simpa using hie
          rw [this]
          simp
        rw [List.map_append, List.map_cons, hmapA, hmapB, hhit, hfresh]
        simp

/-- When every new record carries a url absent from the existing collection,
the merge loop appends them all unchanged: the result is existing ++ ns.
This needs no well-formedness hypotheses. -/
theorem mergeProfiles_all_new (existing ns : List (Profile α))
    (h : ∀ r ∈ ns, r.profileUrl ∉ profileUrls existing) :
    mergeProfiles existing ns = existing ++ ns := by
  have key : ∀ (ms : List (Profile α)), (∀ r ∈ ms, r.profileUrl ∉ profileUrls existing) →
      ∀ (L : List (Profile α)), ms.foldl (mergeStep (urlToId existing)) L = L ++ ms := by
    intro ms
    induction ms with
    | nil => intro _ L; simp
    | cons r rest ih =>
      intro hm L
      have hr : urlToId existing r.profileUrl = none := by
        rw [urlToId_none_iff, lastMatch_none_iff]
        intro p hp he
        exact hm r (List.mem_cons_self r rest)
          (he ▸ List.mem_map_of_mem Profile.profileUrl hp)
      simp only [List.foldl_cons]
      rw [show mergeStep (urlToId existing) L r = L ++ [r] by unfold mergeStep; rw [hr]]
      rw [ih (fun x hx => hm x (List.mem_cons_of_mem r hx)) (L ++ [r])]
      simp
  exact key ns h existing

theorem frameUpd_of_wf {existing : List (Profile α)} (hWF : WFColl existing)
    (ns : List (Profile α)) {p : Profile α} (hp : p ∈ existing) :
    frameUpd existing ns p =
      match lastMatch ns p.profileUrl with
      | some r => { r with id := p.id }
      | none => p := by
  unfold frameUpd
  rw [if_pos ⟨lastMatch_of_unique hWF.1 hp, hWF.2.2 p hp⟩]

theorem isFreshUrl_iff_not_mem {existing : List (Profile α)} (hWF : WFColl existing)
    (u : String) : isFreshUrl existing u = true ↔ u ∉ profileUrls existing := by
  unfold isFreshUrl
  cases hu : urlToId existing u with
  | none =>
    have hnone := (urlToId_none_iff existing u).mp hu
    have := (lastMatch_none_iff existing u).mp hnone
    simp only [true_iff]
    intro hmem
    obtain ⟨p, hp, hpu⟩ := List.mem_map.mp hmem
    exact this p hp hpu
  | some i =>
    have hlm : ∃ eU, lastMatch existing u = some eU ∧ eU.id = i := by
      unfold urlToId at hu
      cases hl : lastMatch existing u with
      | none => rw [hl] at hu; exact Option.noConfusion hu
      | some e =>
        rw [hl] at hu
        exact ⟨e, rfl, by simpa using hu⟩
    obtain ⟨eU, heU, hid⟩ := hlm
    have hmem : u ∈ profileUrls existing :=
      (lastMatch_mem heU).2 ▸ List.mem_map_of_mem Profile.profileUrl (lastMatch_mem heU).1
    have hne : i ≠ "" := hid ▸ hWF.2.2 eU (lastMatch_mem heU).1
    constructor
    · intro hbeq
      exact absurd (by simpa using hbeq) hne
    · intro hnm
      exact absurd hmem hnm

theorem mem_freshRecords {existing ns : List (Profile α)} {r : Profile α} :
    r ∈ freshRecords existing ns ↔
      r ∈ ns ∧ isFreshUrl existing r.profileUrl = true := by
  unfold freshRecords
  simp [List.mem_filter]

theorem profileUrls_map_frameUpd (existing ns L : List (Profile α)) :
    profileUrls (L.map (frameUpd existing ns)) = profileUrls L := by
  unfold profileUrls
  rw [List.map_map]
  exact List.map_congr_left (fun p _ => frameUpd_url existing ns p)

theorem profileIds_map_frameUpd (existing ns L : List (Profile α)) :
    profileIds (L.map (frameUpd existing ns)) = profileIds L := by
  unfold profileIds
  rw [List.map_map]
  exact List.map_congr_left (fun p _ => frameUpd_id existing ns p)

theorem profileUrls_merge {existing : List (Profile α)} (ns : List (Profile α))
    (hids : existing.Pairwise (fun p q => p.id ≠ q.id)) :
    profileUrls (mergeProfiles existing ns) =
      profileUrls existing ++ profileUrls (freshRecords existing ns) := by
  rw [mergeProfiles_closed existing ns hids]
  unfold profileUrls
  rw [List.map_append]
  congr 1
  rw [List.map_map]
  exact List.map_congr_left (fun p _ => frameUpd_url existing ns p)

theorem merge_pairwise_urls {existing ns : List (Profile α)} (hWF : WFColl existing)
    (hnsUrl : ns.Pairwise (fun p q => p.profileUrl ≠ q.profileUrl)) :
    (mergeProfiles existing ns).Pairwise (fun p q => p.profileUrl ≠ q.profileUrl) := by
  rw [mergeProfiles_closed existing ns hWF.2.1]
  rw [List.pairwise_append]
  refine ⟨?_, ?_, ?_⟩
  · rw [List.pairwise_map]
    exact hWF.1.imp (fun {a b} h => by rw [frameUpd_url, frameUpd_url]; exact h)
  · exact List.Pairwise.sublist (List.filter_sublist ns) hnsUrl
  · intro a ha b hb
    obtain ⟨x, hx, hxa⟩ := List.mem_map.mp ha
    obtain ⟨hbns, hbfresh⟩ := mem_freshRecords.mp hb
    have hbnot : b.profileUrl ∉ profileUrls existing :=
      (isFreshUrl_iff_not_mem hWF b.profileUrl).mp hbfresh
    intro he
    apply hbnot
    rw [← he, ← hxa, frameUpd_url]
    exact List.mem_map_of_mem Profile.profileUrl hx

theorem merge_pairwise_ids {existing ns : List (Profile α)} (hWF : WFColl existing)
    (hnsId : ns.Pairwise (fun p q => p.id ≠ q.id))
    (hfreshIds : ∀ r ∈ ns, r.id ∉ profileIds existing) :
    (mergeProfiles existing ns).Pairwise (fun p q => p.id ≠ q.id) := by
  rw [mergeProfiles_closed existing ns hWF.2.1]
  rw [List.pairwise_append]
  refine ⟨?_, ?_, ?_⟩
  · rw [List.pairwise_map]
    exact hWF.2.1.imp (fun {a b} h => by rw [frameUpd_id, frameUpd_id]; exact h)
  · exact List.Pairwise.sublist (List.filter_sublist ns) hnsId
  · intro a ha b hb
    obtain ⟨x, hx, hxa⟩ := List.mem_map.mp ha
    obtain ⟨hbns, _⟩ := mem_freshRecords.mp hb
    intro he
    apply hfreshIds b hbns
    rw [← he, ← hxa, frameUpd_id]
    exact List.mem_map_of_mem Profile.id hx

theorem entriesFor_append (l₁ l₂ : List (Profile α)) (u : String) :
    entriesFor (l₁ ++ l₂) u = entriesFor l₁ u ++ entriesFor l₂ u := by
  unfold entriesFor
  exact List.filter_append l₁ l₂

theorem entriesFor_eq_nil {l : List (Profile α)} {u : String}
    (h : ∀ p ∈ l, p.profileUrl ≠ u) : entriesFor l u = [] := by
  unfold entriesFor
  rw [List.filter_eq_nil_iff]
  intro p hp
  simpa using h p hp

theorem entriesFor_of_unique {l : List (Profile α)} {e : Profile α}
    (hl : l.Pairwise (fun p q => p.profileUrl ≠ q.profileUrl)) (he : e ∈ l) :
    entriesFor l e.profileUrl = [e] := by
  induction l with
  | nil => cases he
  | cons a as ih =>
    rcases List.pairwise_cons.mp hl with ⟨ha, has⟩
    rcases List.mem_cons.mp he with h | h
    · subst h
      unfold entriesFor
      rw [List.filter_cons]
      have hnil : as.filter (fun p => p.profileUrl == e.profileUrl) = [] := by
        rw [List.filter_eq_nil_iff]
        intro p hp
        simpa using fun hc => (ha p hp) hc.symm
      simp only [beq_self_eq_true, if_pos]
      unfold entriesFor at hnil
      rw [hnil]
    · have hne : a.profileUrl ≠ e.profileUrl := ha e h
      have hih := ih has h
      unfold entriesFor at hih ⊢
      rw [List.filter_cons]
      have hbeq : (a.profileUrl == e.profileUrl) = false := by simpa using hne
      simp only [hbeq, Bool.false_eq_true, if_false]
      exact hih

theorem entriesFor_map_frameUpd (existing ns L : List (Profile α)) (u : String) :
    entriesFor (L.map (frameUpd existing ns)) u =
      (entriesFor L u).map (frameUpd existing ns) := by
  unfold entriesFor
  rw [List.filter_map]
  congr 1
  apply List.filter_congr
  intro x _
  simp [frameUpd_url]

theorem entriesFor_merge_known {existing ns : List (Profile α)} (hWF : WFColl existing)
    (hnsUrl : ns.Pairwise (fun p q => p.profileUrl ≠ q.profileUrl))
    {r : Profile α} (hr : r ∈ ns) (hmem : r.profileUrl ∈ profileUrls existing) :
    ∃ p ∈ existing, p.profileUrl = r.profileUrl ∧
      entriesFor (mergeProfiles existing ns) r.profileUrl = [{ r with id := p.id }] := by
  obtain ⟨e, he, heu⟩ := List.mem_map.mp hmem
  refine ⟨e, he, heu, ?_⟩
  rw [mergeProfiles_closed existing ns hWF.2.1, entriesFor_append]
  have h1 : entriesFor (existing.map (frameUpd existing ns)) r.profileUrl =
      [frameUpd existing ns e] := by
    rw [entriesFor_map_frameUpd, ← heu, entriesFor_of_unique hWF.1 he]
    rfl
  have h2 : entriesFor (freshRecords existing ns) r.profileUrl = [] := by
    apply entriesFor_eq_nil
    intro p hp he2
    obtain ⟨_, hfresh⟩ := mem_freshRecords.mp hp
    exact (isFreshUrl_iff_not_mem hWF p.profileUrl).mp hfresh (he2 ▸ hmem)
  have h3 : frameUpd existing ns e = { r with id := e.id } := by
    rw [frameUpd_of_wf hWF ns he, heu, lastMatch_of_unique hnsUrl hr]
  rw [h1, h2, h3]
  simp

theorem entriesFor_merge_fresh {existing ns : List (Profile α)} (hWF : WFColl existing)
    (hnsUrl : ns.Pairwise (fun p q => p.profileUrl ≠ q.profileUrl))
    {r : Profile α} (hr : r ∈ ns) (hmem : r.profileUrl ∉ profileUrls existing) :
    entriesFor (mergeProfiles existing ns) r.profileUrl = [r] := by
  rw [mergeProfiles_closed existing ns hWF.2.1, entriesFor_append]
  have h1 : entriesFor (existing.map (frameUpd existing ns)) r.profileUrl = [] := by
    apply entriesFor_eq_nil
    intro p hp he2
    obtain ⟨x, hx, hxp⟩ := List.mem_map.mp hp
    apply hmem
    rw [← he2, ← hxp, frameUpd_url]
    exact List.mem_map_of_mem Profile.profileUrl hx
  have hrfresh : r ∈ freshRecords existing ns :=
    mem_freshRecords.mpr ⟨hr, (isFreshUrl_iff_not_mem hWF r.profileUrl).mpr hmem⟩
  have hfreshPw : (freshRecords existing ns).Pairwise
      (fun p q => p.profileUrl ≠ q.profileUrl) :=
    List.Pairwise.sublist (List.filter_sublist ns) hnsUrl
  have h2 : entriesFor (freshRecords existing ns) r.profileUrl = [r] :=
    entriesFor_of_unique hfreshPw hrfresh
  rw [h1, h2]
  simp

theorem idOf_merge_stable {existing : List (Profile α)} (hWF : WFColl existing)
    (ns : List (Profile α)) (u : String) (hu : u ∈ profileUrls existing) :
    idOf (mergeProfiles existing ns) u = idOf existing u := by
  rw [mergeProfiles_closed existing ns hWF.2.1]
  unfold idOf
  rw [List.find?_append]
  have hpred : ((fun p => p.profileUrl == u) ∘ frameUpd existing ns) =
      (fun p => p.profileUrl == u) := by
    funext x
    simp [Function.comp, frameUpd_url]
  rw [List.find?_map, hpred]
  cases hf : existing.find? (fun p => p.profileUrl == u) with
  | none =>
    exfalso
    obtain ⟨e, he, heu⟩ := List.mem_map.mp hu
    have := List.find?_eq_none.mp hf e he
    simp [heu] at this
  | some e =>
    simp [frameUpd_id]

end MergeLemmas

section MergeMore

set_option linter.unusedSectionVars false

variable [DecidableEq α]

theorem WFColl_merge {existing ns : List (Profile α)} (hWF : WFColl existing)
    (hB : BatchOK existing ns) : WFColl (mergeProfiles existing ns) := by
  obtain ⟨hu, hi, hne, hfresh⟩ := hB
  refine ⟨merge_pairwise_urls hWF hu, merge_pairwise_ids hWF hi hfresh, ?_⟩
  intro p hp
  rw [mergeProfiles_closed existing ns hWF.2.1] at hp
  rcases List.mem_append.mp hp with h | h
  · obtain ⟨x, hx, hxp⟩ := List.mem_map.mp h
    rw [← hxp, frameUpd_id]
    exact hWF.2.2 x hx
  · obtain ⟨hmem, _⟩ := mem_freshRecords.mp h
    exact hne p hmem

theorem mem_profileUrls_merge {existing : List (Profile α)} (ns : List (Profile α))
    (hids : existing.Pairwise (fun p q => p.id ≠ q.id)) {u : String}
    (hu : u ∈ profileUrls existing) : u ∈ profileUrls (mergeProfiles existing ns) := by
  rw [profileUrls_merge ns hids]
  exact List.mem_append.mpr (Or.inl hu)

theorem mergeMany_id_stable {existing : List (Profile α)}
    {batches : List (List (Profile α))} (hWF : WFColl existing)
    (hc : ChainOK existing batches) (u : String) (hu : u ∈ profileUrls existing) :
    idOf (mergeMany existing batches) u = idOf existing u := by
  induction batches generalizing existing with
  | nil => rfl
  | cons ns rest ih =>
    obtain ⟨hB, hc2⟩ := hc
    have hWF2 := WFColl_merge hWF hB
    have hu2 : u ∈ profileUrls (mergeProfiles existing ns) :=
      mem_profileUrls_merge ns hWF.2.1 hu
    calc idOf (mergeMany existing (ns :: rest)) u
        = idOf (mergeMany (mergeProfiles existing ns) rest) u := rfl
      _ = idOf (mergeProfiles existing ns) u := ih hWF2 hc2 hu2
      _ = idOf existing u := idOf_merge_stable hWF ns u hu

end MergeMore

section RateLimiterLemmas

theorem refillTokens_nonneg {t e : ℚ} (ht : 0 ≤ t) (he : 0 ≤ e) :
    0 ≤ refillTokens t e := by
  unfold refillTokens
  rw [le_min_iff]
  constructor
  · norm_num [CONFIG.maxRequestsPerMinute]
  · have : 0 ≤ e * refillRate := by
      apply mul_nonneg he
      norm_num [refillRate, CONFIG.maxRequestsPerMinute]
    linarith

theorem refillTokens_le_cap (t e : ℚ) :
    refillTokens t e ≤ CONFIG.maxRequestsPerMinute :=
  min_le_left _ _

theorem getToken_bounds : ∀ (es : List ℚ) (t : ℚ), 0 ≤ t → (∀ e ∈ es, 0 ≤ e) →
    ∀ t2, getToken es t = some t2 →
      0 ≤ t2 ∧ t2 ≤ CONFIG.maxRequestsPerMinute := by
  intro es
  induction es with
  | nil => intro t _ _ t2 h; exact Option.noConfusion h
  | cons e rest ih =>
    intro t ht he t2 h
    unfold getToken at h
    by_cases hlt : refillTokens t e < 1
    · rw [if_pos hlt] at h
      exact ih (refillTokens t e)
        (refillTokens_nonneg ht (he e (List.mem_cons_self e rest)))
        (fun x hx => he x (List.mem_cons_of_mem e hx)) t2 h
    · rw [if_neg hlt] at h
      have h1 : (1 : ℚ) ≤ refillTokens t e := le_of_not_lt hlt
      have h2 : refillTokens t e ≤ CONFIG.maxRequestsPerMinute := refillTokens_le_cap t e
      cases h
      constructor
      · linarith
      · linarith

theorem getTokenStates_bounds : ∀ (es : List ℚ) (t : ℚ), 0 ≤ t → (∀ e ∈ es, 0 ≤ e) →
    ∀ s ∈ getTokenStates es t, 0 ≤ s ∧ s ≤ CONFIG.maxRequestsPerMinute := by
  intro es
  induction es with
  | nil => intro t _ _ s hs; cases hs
  | cons e rest ih =>
    intro t ht he s hs
    unfold getTokenStates at hs
    have hr0 : 0 ≤ refillTokens t e :=
      refillTokens_nonneg ht (he e (List.mem_cons_self e rest))
    have hrc : refillTokens t e ≤ CONFIG.maxRequestsPerMinute := refillTokens_le_cap t e
    by_cases hlt : refillTokens t e < 1
    · rw [if_pos hlt] at hs
      rcases List.mem_cons.mp hs with h | h
      · subst h; exact ⟨hr0, hrc⟩
      · exact ih (refillTokens t e) hr0
          (fun x hx => he x (List.mem_cons_of_mem e hx)) s h
    · rw [if_neg hlt] at hs
      have h1 : (1 : ℚ) ≤ refillTokens t e := le_of_not_lt hlt
      rcases List.mem_cons.mp hs with h | h
      · subst h; exact ⟨hr0, hrc⟩
      · rcases List.mem_cons.mp h with h2 | h2
        · subst h2
          constructor
          · linarith
          · linarith
        · cases h2

theorem acquireSeq_bounds : ∀ (calls : List (List ℚ)) (t : ℚ), 0 ≤ t →
    (∀ c ∈ calls, ∀ e ∈ c, 0 ≤ e) →
    ∀ t2, acquireSeq calls t = some t2 →
      0 ≤ t2 ∧ t2 ≤ CONFIG.maxRequestsPerMinute ∨ t2 = t := by
  intro calls
  induction calls with
  | nil =>
    intro t _ _ t2 h
    unfold acquireSeq at h
    cases h
    exact Or.inr rfl
  | cons c rest ih =>
    intro t ht hc t2 h
    unfold acquireSeq at h
    cases hg : getToken c t with
    | none => rw [hg] at h; exact Option.noConfusion h
    | some t1 =>
      rw [hg] at h
      have hb := getToken_bounds c t ht (hc c (List.mem_cons_self c rest)) t1 hg
      rcases ih t1 hb.1 (fun x hx => hc x (List.mem_cons_of_mem c hx)) t2 h with h2 | h2
      · exact Or.inl h2
      · subst h2; exact Or.inl hb

end RateLimiterLemmas

section BackoffLemmas

theorem backoffDelay_le_cap (k : Nat) : backoffDelay k ≤ 30000 :=
  min_le_right _ _

theorem backoffDelay_mono {k k2 : Nat} (h : k ≤ k2) :
    backoffDelay k ≤ backoffDelay k2 := by
  unfold backoffDelay
  refine min_le_min ?_ (le_refl _)
  apply mul_le_mul_of_nonneg_left (pow_le_pow_right₀ (by norm_num) h)
  norm_num [CONFIG.retryDelay]

end BackoffLemmas

section FetchLemmas

theorem fetchGo_counters_mono (oracle : Nat → NetOutcome) (M : Nat) :
    ∀ (fuel attempt a b : Nat) (d : List ℚ),
      a ≤ (fetchGo oracle M fuel attempt ⟨a, b, d⟩).2.tokensAcquired ∧
      b ≤ (fetchGo oracle M fuel attempt ⟨a, b, d⟩).2.fetches := by
  intro fuel
  induction fuel with
  | zero => intro attempt a b d; exact ⟨le_refl _, le_refl _⟩
  | succ fuel ih =>
    intro attempt a b d
    simp only [fetchGo]
    split
    · split
      · split
        · exact ⟨Nat.le_succ _, Nat.le_succ _⟩
        · exact ⟨le_trans (Nat.le_succ _) (ih _ _ _ _).1,
            le_trans (Nat.le_succ _) (ih _ _ _ _).2⟩
      · split
        · exact ⟨le_trans (Nat.le_succ _) (ih _ _ _ _).1,
            le_trans (Nat.le_succ _) (ih _ _ _ _).2⟩
        · split
          · split
            · exact ⟨Nat.le_succ _, Nat.le_succ _⟩
            · exact ⟨le_trans (Nat.le_succ _) (ih _ _ _ _).1,
                le_trans (Nat.le_succ _) (ih _ _ _ _).2⟩
          · split
            · split
              · exact ⟨Nat.le_succ _, Nat.le_succ _⟩
              · exact ⟨le_trans (Nat.le_succ _) (ih _ _ _ _).1,
                  le_trans (Nat.le_succ _) (ih _ _ _ _).2⟩
            · exact ⟨Nat.le_succ _, Nat.le_succ _⟩
    · exact ⟨le_refl _, le_refl _⟩

theorem fetchGo_performs (oracle : Nat → NetOutcome) (M fuel attempt a b : Nat)
    (d : List ℚ) (h : attempt < M) :
    a + 1 ≤ (fetchGo oracle M (fuel + 1) attempt ⟨a, b, d⟩).2.tokensAcquired ∧
    b + 1 ≤ (fetchGo oracle M (fuel + 1) attempt ⟨a, b, d⟩).2.fetches := by
  simp only [fetchGo, if_pos h]
  split
  · split
    · exact ⟨le_refl _, le_refl _⟩
    · exact ⟨(fetchGo_counters_mono oracle M fuel _ _ _ _).1,
        (fetchGo_counters_mono oracle M fuel _ _ _ _).2⟩
  · split
    · exact ⟨(fetchGo_counters_mono oracle M fuel _ _ _ _).1,
        (fetchGo_counters_mono oracle M fuel _ _ _ _).2⟩
    · split
      · split
        · exact ⟨le_refl _, le_refl _⟩
        · exact ⟨(fetchGo_counters_mono oracle M fuel _ _ _ _).1,
            (fetchGo_counters_mono oracle M fuel _ _ _ _).2⟩
      · split
        · split
          · exact ⟨le_refl _, le_refl _⟩
          · exact ⟨(fetchGo_counters_mono oracle M fuel _ _ _ _).1,
              (fetchGo_counters_mono oracle M fuel _ _ _ _).2⟩
        · exact ⟨le_refl _, le_refl _⟩

theorem fetchWithRetry_performs (oracle : Nat → NetOutcome) (tr : Trace) :
    tr.tokensAcquired + 1 ≤ (fetchWithRetry oracle tr).2.tokensAcquired ∧
    tr.fetches + 1 ≤ (fetchWithRetry oracle tr).2.fetches :=
  fetchGo_performs oracle CONFIG.retryAttempts 4 0 tr.tokensAcquired tr.fetches tr.delays
    (by norm_num [CONFIG.retryAttempts])

theorem fetchGo_success_step (oracle : Nat → NetOutcome) (M fuel attempt : Nat)
    (tr : Trace) {status : Nat} {ra : Option Nat} {b : Body}
    (h : attempt < M) (horc : oracle tr.fetches = NetOutcome.response status ra b)
    (h429 : status ≠ 429) (hok : 200 ≤ status ∧ status ≤ 299)
    (hbody : ¬ (b.len < 500 ∨ b.tooManyRequests = true)) :
    fetchGo oracle M (fuel + 1) attempt tr =
      (Except.ok b, ⟨tr.tokensAcquired + 1, tr.fetches + 1,
        if 0 < attempt then tr.delays ++ [backoffDelay attempt] else tr.delays⟩) := by
  have h429b : (status == 429) = false := by simpa using h429
  simp only [fetchGo, if_pos h, horc, h429b, Bool.false_eq_true, if_false,
    if_neg (not_not_intro hok), if_neg hbody]

theorem fetchGo_429_step (oracle : Nat → NetOutcome) (M fuel attempt : Nat)
    (tr : Trace) {ra : Option Nat} {b : Body}
    (h : attempt < M) (horc : oracle tr.fetches = NetOutcome.response 429 ra b) :
    fetchGo oracle M (fuel + 1) attempt tr =
      fetchGo oracle M fuel (attempt + 1)
        ⟨tr.tokensAcquired + 1, tr.fetches + 1,
          (if 0 < attempt then tr.delays ++ [backoffDelay attempt] else tr.delays) ++
            [match ra with
             | some r => (r : ℚ) * 1000
             | none => CONFIG.retryDelay * (3 / 2) ^ (attempt + 1)]⟩ := by
  simp only [fetchGo, if_pos h, horc]
  rfl

theorem cacheGet_cacheSet (c : CacheStore) (category url : String) (b : Body) :
    cacheGet (cacheSet c category url b) category url = some b := by
  unfold cacheGet cacheSet
  simp [List.find?_cons]

theorem parseProfileWithCache_hit (oracle : Nat → NetOutcome) (w : World)
    (category url : String) {b : Body}
    (h : cacheGet w.cache category url = some b) :
    parseProfileWithCache oracle w category url false = (Except.ok b, w) := by
  unfold parseProfileWithCache
  simp [h]

theorem parseProfileWithCache_fetches (oracle : Nat → NetOutcome) (w : World)
    (category url : String) (forceRefresh : Bool)
    (h : forceRefresh = true ∨ cacheGet w.cache category url = none) :
    w.trace.tokensAcquired + 1 ≤
      (parseProfileWithCache oracle w category url forceRefresh).2.trace.tokensAcquired ∧
    w.trace.fetches + 1 ≤
      (parseProfileWithCache oracle w category url forceRefresh).2.trace.fetches ∧
    ∀ b, (parseProfileWithCache oracle w category url forceRefresh).1 = Except.ok b →
      cacheGet (parseProfileWithCache oracle w category url forceRefresh).2.cache
        category url = some b ∧
      (fetchWithRetry oracle w.trace).1 = Except.ok b := by
  have hnone : (if forceRefresh then none else cacheGet w.cache category url) = none := by
    rcases h with h | h
    · rw [h]
      simp
    · cases forceRefresh <;> simp [h]
  have hperf := fetchWithRetry_performs oracle w.trace
  unfold parseProfileWithCache
  rw [hnone]
  cases hf : fetchWithRetry oracle w.trace with
  | mk r tr =>
    rw [hf] at hperf
    cases r with
    | ok body =>
      refine ⟨by simpa using hperf.1, by simpa using hperf.2, ?_⟩
      intro b hb
      have hbb : body = b := by simpa using hb
      subst hbb
      exact ⟨cacheGet_cacheSet w.cache category url body, rfl⟩
    | error e =>
      refine ⟨by simpa using hperf.1, by simpa using hperf.2, ?_⟩
      intro b hb
      simp at hb

theorem parseProfileWithCache_first_success (oracle : Nat → NetOutcome) (w : World)
    (category url : String) {status : Nat} {ra : Option Nat} {b : Body}
    (hmiss : cacheGet w.cache category url = none)
    (horc : oracle w.trace.fetches = NetOutcome.response status ra b)
    (h429 : status ≠ 429) (hok : 200 ≤ status ∧ status ≤ 299)
    (hbody : ¬ (b.len < 500 ∨ b.tooManyRequests = true)) :
    parseProfileWithCache oracle w category url false =
      (Except.ok b,
        ⟨cacheSet w.cache category url b,
          ⟨w.trace.tokensAcquired + 1, w.trace.fetches + 1, w.trace.delays⟩⟩) := by
  have hfetch : fetchWithRetry oracle w.trace =
      (Except.ok b,
        ⟨w.trace.tokensAcquired + 1, w.trace.fetches + 1, w.trace.delays⟩) := by
    show fetchGo oracle CONFIG.retryAttempts (4 + 1) 0 w.trace = _
    rw [fetchGo_success_step oracle CONFIG.retryAttempts 4 0 w.trace
      (by norm_num [CONFIG.retryAttempts]) horc h429 hok hbody]
    simp
  unfold parseProfileWithCache
  rw [show (if false then none else cacheGet w.cache category url) = none by simpa using hmiss,
    hfetch]

end FetchLemmas

section BatchLemmas

theorem chunksGo_flatten {β : Type} (b : Nat) :
    ∀ (fuel : Nat) (l : List β), l.length ≤ fuel →
      (chunksGo (b + 1) fuel l).flatten = l := by
  intro fuel
  induction fuel with
  | zero =>
    intro l hl
    cases l with
    | nil => rfl
    | cons x xs => simp at hl
  | succ fuel ih =>
    intro l hl
    cases l with
    | nil => rfl
    | cons x xs =>
      simp only [chunksGo, List.flatten_cons]
      rw [ih _ (by simp only [List.length_drop, List.length_cons] at hl ⊢; omega)]
      exact List.take_append_drop (b + 1) (x :: xs)

theorem chunksGo_sizes {β : Type} (b : Nat) :
    ∀ (fuel : Nat) (l : List β) (c : List β), c ∈ chunksGo (b + 1) fuel l →
      c ≠ [] ∧ c.length ≤ b + 1 := by
  intro fuel
  induction fuel with
  | zero =>
    intro l c hc
    cases l with
    | nil => cases hc
    | cons x xs => cases hc
  | succ fuel ih =>
    intro l c hc
    cases l with
    | nil => cases hc
    | cons x xs =>
      simp only [chunksGo] at hc
      rcases List.mem_cons.mp hc with h | h
      · subst h
        constructor
        · simp
        · simp
      · exact ih _ c h

theorem chunks_flatten {β : Type} (batchSize : Nat) (h : 0 < batchSize) (l : List β) :
    (chunks batchSize l).flatten = l := by
  cases batchSize with
  | zero => exact absurd h (lt_irrefl 0)
  | succ b => exact chunksGo_flatten b l.length l (le_refl _)

theorem chunks_sizes {β : Type} (batchSize : Nat) (h : 0 < batchSize) (l : List β) :
    ∀ c ∈ chunks batchSize l, c ≠ [] ∧ c.length ≤ batchSize := by
  cases batchSize with
  | zero => exact absurd h (lt_irrefl 0)
  | succ b => exact fun c hc => chunksGo_sizes b l.length l c hc

theorem batchLoop_foldl {α : Type} (outcome : String → Option (Profile α)) :
    ∀ (cs : List (List String)) (acc : List (Profile α)) (k : Nat),
      cs.foldl (fun acc batch => (acc.1 ++ batch.filterMap outcome, acc.2 + 1)) (acc, k) =
        (acc ++ (cs.map (fun c => c.filterMap outcome)).flatten, k + cs.length) := by
  intro cs
  induction cs with
  | nil => intro acc k; simp
  | cons c cs ih =>
    intro acc k
    simp only [List.foldl_cons]
    rw [ih]
    simp only [List.flatten_cons, List.map_cons, List.append_assoc, List.length_cons,
      Prod.mk.injEq]
    exact ⟨trivial, by omega⟩

theorem batchLoop_spec {α : Type} (outcome : String → Option (Profile α))
    (batchSize : Nat) (h : 0 < batchSize) (urls : List String) :
    batchLoop outcome batchSize urls =
      (urls.filterMap outcome, (chunks batchSize urls).length) := by
  unfold batchLoop
  rw [batchLoop_foldl]
  simp only [List.nil_append, Nat.zero_add]
  congr 1
  rw [← List.filterMap_flatten, chunks_flatten batchSize h]

theorem length_filterMap_add_none {β γ : Type} (f : β → Option γ) (l : List β) :
    (l.filterMap f).length + (l.filter (fun u => (f u).isNone)).length = l.length := by
  induction l with
  | nil => rfl
  | cons x xs ih =>
    cases hf : f x with
    | none =>
      simp only [List.filterMap_cons, hf, List.filter_cons, Option.isNone_none,
        if_pos, List.length_cons]
      omega
    | some v =>
      simp only [List.filterMap_cons, hf, List.filter_cons, Option.isNone_some,
        Bool.false_eq_true, if_false, List.length_cons]
      omega

end BatchLemmas

section Claims

/-- C1 counterexample: the claim fails as stated.  The empty existing
collection has no duplicate profileUrl, yet merging two new records that
share a url produces a collection with two entries carrying that url: the
merge loop never registers the url of a record it has just appended, so
duplicates inside the new-record list survive. -/
theorem mergeProfiles_uniqueness_counterexample :
    ([] : List (Profile Nat)).Pairwise (fun p q => p.profileUrl ≠ q.profileUrl) ∧
    ¬ ((mergeProfiles ([] : List (Profile Nat))
        [Profile.mk "a" "u" 0, Profile.mk "b" "u" 1]).Pairwise
      (fun p q => p.profileUrl ≠ q.profileUrl)) := by
  constructor
  · exact List.Pairwise.nil
  · intro h
    have hout : mergeProfiles ([] : List (Profile Nat))
        [Profile.mk "a" "u" 0, Profile.mk "b" "u" 1] =
        [Profile.mk "a" "u" 0, Profile.mk "b" "u" 1] := rfl
    rw [hout] at h
    exact (List.pairwise_cons.mp h).1 (Profile.mk "b" "u" 1) (by simp) rfl

/-- C1 (amended): for an existing collection with pairwise distinct
profileUrls, pairwise distinct non-empty ids, and a new-record list with
pairwise distinct profileUrls and pairwise distinct ids disjoint from the
existing ids, the merged collection has no two entries sharing a
profileUrl, no two entries sharing an id, and every input record is
represented exactly once: the output holds exactly one entry with its url,
carrying its payload (with the preserved or fresh id). -/
theorem mergeProfiles_uniqueness {α : Type} [DecidableEq α]
    (existing ns : List (Profile α)) (hWF : WFColl existing)
    (hnsUrl : ns.Pairwise (fun p q => p.profileUrl ≠ q.profileUrl))
    (hnsId : ns.Pairwise (fun p q => p.id ≠ q.id))
    (hfreshIds : ∀ r ∈ ns, r.id ∉ profileIds existing) :
    (mergeProfiles existing ns).Pairwise (fun p q => p.profileUrl ≠ q.profileUrl) ∧
    (mergeProfiles existing ns).Pairwise (fun p q => p.id ≠ q.id) ∧
    ∀ r ∈ ns, ∃ i, entriesFor (mergeProfiles existing ns) r.profileUrl =
      [{ r with id := i }] := by
  refine ⟨merge_pairwise_urls hWF hnsUrl, merge_pairwise_ids hWF hnsId hfreshIds, ?_⟩
  intro r hr
  by_cases hmem : r.profileUrl ∈ profileUrls existing
  · obtain ⟨p, _, _, hent⟩ := entriesFor_merge_known hWF hnsUrl hr hmem
    exact ⟨p.id, hent⟩
  · exact ⟨r.id, entriesFor_merge_fresh hWF hnsUrl hr hmem⟩

/-- C1 witness: the amended theorem applied to a concrete collection and
batch. -/
theorem mergeProfiles_uniqueness_witness :
    (WFColl [Profile.mk "x" "u1" (0 : Nat)] ∧
     [Profile.mk "y" "u2" (1 : Nat), Profile.mk "z" "u1" 2].Pairwise
       (fun p q => p.profileUrl ≠ q.profileUrl) ∧
     [Profile.mk "y" "u2" (1 : Nat), Profile.mk "z" "u1" 2].Pairwise
       (fun p q => p.id ≠ q.id) ∧
     (∀ r ∈ [Profile.mk "y" "u2" (1 : Nat), Profile.mk "z" "u1" 2],
       r.id ∉ profileIds [Profile.mk "x" "u1" (0 : Nat)])) ∧
    ((mergeProfiles [Profile.mk "x" "u1" (0 : Nat)]
        [Profile.mk "y" "u2" 1, Profile.mk "z" "u1" 2]).Pairwise
      (fun p q => p.profileUrl ≠ q.profileUrl) ∧
     (mergeProfiles [Profile.mk "x" "u1" (0 : Nat)]
        [Profile.mk "y" "u2" 1, Profile.mk "z" "u1" 2]).Pairwise
      (fun p q => p.id ≠ q.id) ∧
     ∀ r ∈ [Profile.mk "y" "u2" (1 : Nat), Profile.mk "z" "u1" 2],
       ∃ i, entriesFor (mergeProfiles [Profile.mk "x" "u1" (0 : Nat)]
         [Profile.mk "y" "u2" 1, Profile.mk "z" "u1" 2]) r.profileUrl =
         [{ r with id := i }]) :=
  ⟨⟨⟨by decide, by decide, by decide⟩, by decide, by decide, by decide⟩,
   mergeProfiles_uniqueness [Profile.mk "x" "u1" (0 : Nat)]
     [Profile.mk "y" "u2" 1, Profile.mk "z" "u1" 2]
     ⟨by decide, by decide, by decide⟩ (by decide) (by decide) (by decide)⟩

/-- C2 counterexample: the claim fails as stated.  When two existing
entries share an id (the collection has distinct urls, which is all the
claim context requires), the lookup by id targets the wrong entry: merging
a record for u2 clobbers the entry for u1 and leaves the old u2 payload in
place, so the id associated with u1 is destroyed and the u2 entry is not
replaced. -/
theorem mergeProfiles_identity_counterexample :
    idOf [Profile.mk "x" "u1" (0 : Nat), Profile.mk "x" "u2" 1] "u1" = some "x" ∧
    idOf (mergeProfiles [Profile.mk "x" "u1" (0 : Nat), Profile.mk "x" "u2" 1]
      [Profile.mk "y" "u2" 2]) "u1" = none ∧
    entriesFor (mergeProfiles [Profile.mk "x" "u1" (0 : Nat), Profile.mk "x" "u2" 1]
      [Profile.mk "y" "u2" 2]) "u2" ≠ [Profile.mk "x" "u2" 2] := by
  refine ⟨rfl, rfl, ?_⟩
  decide

/-- C2 (amended): for a well-formed existing collection (distinct urls,
distinct non-empty ids), a new record whose url is already present replaces
that entry, keeping the pre-existing id and taking the new payload; and
along any chain of merges whose batches carry fresh distinct ids and
distinct urls, the id associated with an initially present url never
changes. -/
theorem mergeProfiles_identity_stability {α : Type} [DecidableEq α]
    (existing ns : List (Profile α)) (batches : List (List (Profile α)))
    (hWF : WFColl existing)
    (hnsUrl : ns.Pairwise (fun p q => p.profileUrl ≠ q.profileUrl))
    (hc : ChainOK existing batches) :
    (∀ r ∈ ns, r.profileUrl ∈ profileUrls existing →
      ∃ p ∈ existing, p.profileUrl = r.profileUrl ∧
        entriesFor (mergeProfiles existing ns) r.profileUrl = [{ r with id := p.id }]) ∧
    (∀ u ∈ profileUrls existing, idOf (mergeMany existing batches) u = idOf existing u) := by
  constructor
  · intro r hr hmem
    exact entriesFor_merge_known hWF hnsUrl hr hmem
  · intro u hu
    exact mergeMany_id_stable hWF hc u hu

/-- C2 witness: the amended theorem applied to a concrete collection, one
batch merged directly and a two-batch chain. -/
theorem mergeProfiles_identity_stability_witness :
    (WFColl [Profile.mk "x" "u1" (0 : Nat)] ∧
     [Profile.mk "z" "u1" (2 : Nat)].Pairwise (fun p q => p.profileUrl ≠ q.profileUrl) ∧
     ChainOK [Profile.mk "x" "u1" (0 : Nat)] [[Profile.mk "y" "u2" 1]]) ∧
    ((∀ r ∈ [Profile.mk "z" "u1" (2 : Nat)],
       r.profileUrl ∈ profileUrls [Profile.mk "x" "u1" (0 : Nat)] →
       ∃ p ∈ [Profile.mk "x" "u1" (0 : Nat)], p.profileUrl = r.profileUrl ∧
         entriesFor (mergeProfiles [Profile.mk "x" "u1" (0 : Nat)]
           [Profile.mk "z" "u1" 2]) r.profileUrl = [{ r with id := p.id }]) ∧
     (∀ u ∈ profileUrls [Profile.mk "x" "u1" (0 : Nat)],
       idOf (mergeMany [Profile.mk "x" "u1" (0 : Nat)] [[Profile.mk "y" "u2" 1]]) u =
         idOf [Profile.mk "x" "u1" (0 : Nat)] u)) :=
  ⟨⟨⟨by decide, by decide, by decide⟩, by decide,
    ⟨⟨by decide, by decide, by decide, by decide⟩, trivial⟩⟩,
   mergeProfiles_identity_stability [Profile.mk "x" "u1" (0 : Nat)]
     [Profile.mk "z" "u1" 2] [[Profile.mk "y" "u2" 1]]
     ⟨by decide, by decide, by decide⟩ (by decide)
     ⟨⟨by decide, by decide, by decide, by decide⟩, trivial⟩⟩

/-- C10 counterexample: the claim fails as stated.  With duplicate ids in
the existing collection (entries for u1 and u2 both carrying id x), merging
a single record for u2 overwrites the u1 entry: the url u1, present in the
input, is absent from the output, so an existing entry was effectively
removed. -/
theorem mergeProfiles_frame_counterexample :
    "u1" ∈ profileUrls [Profile.mk "x" "u1" (0 : Nat), Profile.mk "x" "u2" 1] ∧
    "u1" ∉ profileUrls (mergeProfiles
      [Profile.mk "x" "u1" (0 : Nat), Profile.mk "x" "u2" 1]
      [Profile.mk "y" "u2" 2]) := by
  decide

/-- C10 (amended): if the existing ids are pairwise distinct, mergeProfiles
never removes an existing entry: the output is the existing collection
rewritten in place (in order) followed by the appended records, the rewrite
preserves every entry url and id, entries whose url matches no new record
are returned unchanged, and every url present in the existing collection is
still present in the output. -/
theorem mergeProfiles_frame {α : Type} [DecidableEq α]
    (existing ns : List (Profile α))
    (hids : existing.Pairwise (fun p q => p.id ≠ q.id)) :
    mergeProfiles existing ns =
      existing.map (frameUpd existing ns) ++ freshRecords existing ns ∧
    (∀ p ∈ existing, (frameUpd existing ns p).profileUrl = p.profileUrl) ∧
    (∀ p ∈ existing, (frameUpd existing ns p).id = p.id) ∧
    (∀ p ∈ existing, p.profileUrl ∉ profileUrls ns → frameUpd existing ns p = p) ∧
    (∀ p ∈ existing, p.profileUrl ∈ profileUrls (mergeProfiles existing ns)) := by
  refine ⟨mergeProfiles_closed existing ns hids,
    fun p _ => frameUpd_url existing ns p,
    fun p _ => frameUpd_id existing ns p,
    fun p _ hp => frameUpd_notin existing ns p hp, ?_⟩
  intro p hp
  exact mem_profileUrls_merge ns hids (List.mem_map_of_mem Profile.profileUrl hp)

/-- C10 witness: the amended theorem applied to a concrete collection and
batch with one replaced and one untouched entry. -/
theorem mergeProfiles_frame_witness :
    ([Profile.mk "x" "u1" (0 : Nat), Profile.mk "y" "u2" 1].Pairwise
      (fun p q => p.id ≠ q.id)) ∧
    (mergeProfiles [Profile.mk "x" "u1" (0 : Nat), Profile.mk "y" "u2" 1]
        [Profile.mk "z" "u2" 2] =
      [Profile.mk "x" "u1" (0 : Nat), Profile.mk "y" "u2" 1].map
        (frameUpd [Profile.mk "x" "u1" (0 : Nat), Profile.mk "y" "u2" 1]
          [Profile.mk "z" "u2" 2]) ++
        freshRecords [Profile.mk "x" "u1" (0 : Nat), Profile.mk "y" "u2" 1]
          [Profile.mk "z" "u2" 2] ∧
     (∀ p ∈ [Profile.mk "x" "u1" (0 : Nat), Profile.mk "y" "u2" 1],
       (frameUpd [Profile.mk "x" "u1" (0 : Nat), Profile.mk "y" "u2" 1]
         [Profile.mk "z" "u2" 2] p).profileUrl = p.profileUrl) ∧
     (∀ p ∈ [Profile.mk "x" "u1" (0 : Nat), Profile.mk "y" "u2" 1],
       (frameUpd [Profile.mk "x" "u1" (0 : Nat), Profile.mk "y" "u2" 1]
         [Profile.mk "z" "u2" 2] p).id = p.id) ∧
     (∀ p ∈ [Profile.mk "x" "u1" (0 : Nat), Profile.mk "y" "u2" 1],
       p.profileUrl ∉ profileUrls [Profile.mk "z" "u2" (2 : Nat)] →
       frameUpd [Profile.mk "x" "u1" (0 : Nat), Profile.mk "y" "u2" 1]
         [Profile.mk "z" "u2" 2] p = p) ∧
     (∀ p ∈ [Profile.mk "x" "u1" (0 : Nat), Profile.mk "y" "u2" 1],
       p.profileUrl ∈ profileUrls (mergeProfiles
         [Profile.mk "x" "u1" (0 : Nat), Profile.mk "y" "u2" 1]
         [Profile.mk "z" "u2" 2]))) :=
  ⟨by decide,
   mergeProfiles_frame [Profile.mk "x" "u1" (0 : Nat), Profile.mk "y" "u2" 1]
     [Profile.mk "z" "u2" 2] (by decide)⟩

/-- C3: a cache hit with forceRefresh unset returns the cached document with
the world unchanged, so no rate-limiter token is acquired, no fetch is
performed and no delay occurs; on a cache miss or with forceRefresh set, at
least one token is acquired and one fetch performed, the result comes from
the retry controller, and a successful document is stored in the cache; and
fetching the same url twice without force-refresh performs exactly one
network fetch when the first response is a valid success. -/
theorem parseProfileWithCache_contract (oracle : Nat → NetOutcome) (w : World)
    (category url : String) :
    (∀ b : Body, cacheGet w.cache category url = some b →
      parseProfileWithCache oracle w category url false = (Except.ok b, w)) ∧
    (∀ forceRefresh : Bool,
      (forceRefresh = true ∨ cacheGet w.cache category url = none) →
      w.trace.tokensAcquired + 1 ≤
        (parseProfileWithCache oracle w category url forceRefresh).2.trace.tokensAcquired ∧
      w.trace.fetches + 1 ≤
        (parseProfileWithCache oracle w category url forceRefresh).2.trace.fetches ∧
      (∀ b, (parseProfileWithCache oracle w category url forceRefresh).1 = Except.ok b →
        cacheGet (parseProfileWithCache oracle w category url forceRefresh).2.cache
          category url = some b ∧
        (fetchWithRetry oracle w.trace).1 = Except.ok b)) ∧
    (∀ (status : Nat) (ra : Option Nat) (b : Body),
      cacheGet w.cache category url = none →
      oracle w.trace.fetches = NetOutcome.response status ra b →
      status ≠ 429 → 200 ≤ status → status ≤ 299 →
      ¬ (b.len < 500 ∨ b.tooManyRequests = true) →
      (parseProfileWithCache oracle w category url false).1 = Except.ok b ∧
      (parseProfileWithCache oracle w category url false).2.trace.fetches =
        w.trace.fetches + 1 ∧
      parseProfileWithCache oracle
        (parseProfileWithCache oracle w category url false).2 category url false =
        (Except.ok b, (parseProfileWithCache oracle w category url false).2)) := by
  refine ⟨fun b hb => parseProfileWithCache_hit oracle w category url hb,
    fun forceRefresh h => parseProfileWithCache_fetches oracle w category url forceRefresh h,
    ?_⟩
  intro status ra b hmiss horc h429 hlo hhi hbody
  have hfirst := parseProfileWithCache_first_success oracle w category url hmiss horc
    h429 ⟨hlo, hhi⟩ hbody
  refine ⟨by rw [hfirst], by rw [hfirst], ?_⟩
  rw [hfirst]
  exact parseProfileWithCache_hit oracle _ category url
    (cacheGet_cacheSet w.cache category url b)

/-- C3 witness: the contract applied to the empty cache, a fresh trace and
the oracle that always answers 200 with a valid body. -/
theorem parseProfileWithCache_contract_witness :
    (cacheGet (World.mk ⟨[]⟩ ⟨0, 0, []⟩).cache "idol" "u" = none ∧
     (fun _ => NetOutcome.response 200 none (Body.mk 600 false)) ((World.mk ⟨[]⟩ ⟨0, 0, []⟩).trace.fetches) =
       NetOutcome.response 200 none (Body.mk 600 false) ∧
     (200 : Nat) ≠ 429 ∧ 200 ≤ 200 ∧ 200 ≤ 299 ∧
     ¬ ((Body.mk 600 false).len < 500 ∨ (Body.mk 600 false).tooManyRequests = true)) ∧
    ((parseProfileWithCache (fun _ => NetOutcome.response 200 none (Body.mk 600 false))
        (World.mk ⟨[]⟩ ⟨0, 0, []⟩) "idol" "u" false).1 = Except.ok (Body.mk 600 false) ∧
     (parseProfileWithCache (fun _ => NetOutcome.response 200 none (Body.mk 600 false))
        (World.mk ⟨[]⟩ ⟨0, 0, []⟩) "idol" "u" false).2.trace.fetches =
       (World.mk ⟨[]⟩ ⟨0, 0, []⟩).trace.fetches + 1 ∧
     parseProfileWithCache (fun _ => NetOutcome.response 200 none (Body.mk 600 false))
       (parseProfileWithCache (fun _ => NetOutcome.response 200 none (Body.mk 600 false))
         (World.mk ⟨[]⟩ ⟨0, 0, []⟩) "idol" "u" false).2 "idol" "u" false =
       (Except.ok (Body.mk 600 false),
         (parseProfileWithCache (fun _ => NetOutcome.response 200 none (Body.mk 600 false))
           (World.mk ⟨[]⟩ ⟨0, 0, []⟩) "idol" "u" false).2)) :=
  ⟨⟨rfl, rfl, by decide, by decide, by decide, by decide⟩,
   (parseProfileWithCache_contract (fun _ => NetOutcome.response 200 none (Body.mk 600 false))
     (World.mk ⟨[]⟩ ⟨0, 0, []⟩) "idol" "u").2.2 200 none (Body.mk 600 false)
     rfl rfl (by decide) (by decide) (by decide) (by decide)⟩

/-- C5 counterexample: the claim fails as stated.  Each 429 response
increments the attempt counter just like any other failure: five
consecutive 429 responses exhaust maxAttempts, the session-level fetch for
that url aborts with the max-attempts error, and exactly
CONFIG.retryAttempts = 5 fetches were performed. -/
theorem fetch429_counterexample :
    (fetchWithRetry (fun _ => NetOutcome.response 429 none (Body.mk 600 false))
      ⟨0, 0, []⟩).1 = Except.error FetchError.maxAttemptsReached ∧
    (fetchWithRetry (fun _ => NetOutcome.response 429 none (Body.mk 600 false))
      ⟨0, 0, []⟩).2.fetches = 5 := by
  constructor <;> rfl

/-- C5 (amended): an HTTP 429 response increments the attempt counter and
counts toward maxAttempts exhaustion exactly like other failures; before
continuing, the loop waits the server-supplied Retry-After hint (in
seconds, times 1000) when present, otherwise retryDelay * 1.5 to the power
of the already-incremented attempt counter (uncapped); the iteration then
continues with the next attempt instead of throwing, but an unbroken run of
429 responses exhausts the attempt budget and fails with the max-attempts
error. -/
theorem fetch429_behavior (oracle : Nat → NetOutcome) :
    (∀ (M fuel attempt : Nat) (tr : Trace) (ra : Option Nat) (b : Body),
      attempt < M → oracle tr.fetches = NetOutcome.response 429 ra b →
      fetchGo oracle M (fuel + 1) attempt tr =
        fetchGo oracle M fuel (attempt + 1)
          ⟨tr.tokensAcquired + 1, tr.fetches + 1,
            (if 0 < attempt then tr.delays ++ [backoffDelay attempt] else tr.delays) ++
              [match ra with
               | some r => (r : ℚ) * 1000
               | none => CONFIG.retryDelay * (3 / 2) ^ (attempt + 1)]⟩) ∧
    ((∀ n, ∃ ra b, oracle n = NetOutcome.response 429 ra b) →
      ∀ tr, (fetchWithRetry oracle tr).1 = Except.error FetchError.maxAttemptsReached) := by
  constructor
  · intro M fuel attempt tr ra b h horc
    exact fetchGo_429_step oracle M fuel attempt tr h horc
  · intro hall tr
    have key : ∀ (fuel attempt : Nat) (tr2 : Trace),
        (fetchGo oracle CONFIG.retryAttempts fuel attempt tr2).1 =
          Except.error FetchError.maxAttemptsReached := by
      intro fuel
      induction fuel with
      | zero => intro attempt tr2; rfl
      | succ fuel ih =>
        intro attempt tr2
        by_cases hlt : attempt < CONFIG.retryAttempts
        · obtain ⟨ra, b, horc⟩ := hall tr2.fetches
          rw [fetchGo_429_step oracle CONFIG.retryAttempts fuel attempt tr2 hlt horc]
          exact ih _ _
        · simp only [fetchGo, if_neg hlt]
    exact key CONFIG.retryAttempts 0 tr

/-- C5 witness: the amended theorem applied to the all-429 oracle without a
Retry-After hint, at the first attempt. -/
theorem fetch429_behavior_witness :
    ((0 : Nat) < 5 ∧
     (fun _ => NetOutcome.response 429 none (Body.mk 600 false))
       ((Trace.mk 0 0 []).fetches) = NetOutcome.response 429 none (Body.mk 600 false) ∧
     (∀ n : Nat, ∃ ra b, (fun _ => NetOutcome.response 429 none (Body.mk 600 false)) n =
       NetOutcome.response 429 ra b)) ∧
    (fetchGo (fun _ => NetOutcome.response 429 none (Body.mk 600 false)) 5 5 0 ⟨0, 0, []⟩ =
      fetchGo (fun _ => NetOutcome.response 429 none (Body.mk 600 false)) 5 4 1
        ⟨1, 1, [CONFIG.retryDelay * (3 / 2) ^ 1]⟩ ∧
     (fetchWithRetry (fun _ => NetOutcome.response 429 none (Body.mk 600 false))
       ⟨9, 9, []⟩).1 = Except.error FetchError.maxAttemptsReached) := by
  refine ⟨⟨by decide, rfl, fun n => ⟨none, Body.mk 600 false, rfl⟩⟩, ?_, ?_⟩
  · have := (fetch429_behavior (fun _ => NetOutcome.response 429 none (Body.mk 600 false))).1
      5 4 0 ⟨0, 0, []⟩ none (Body.mk 600 false) (by decide) rfl
    simpa using this
  · exact (fetch429_behavior (fun _ => NetOutcome.response 429 none (Body.mk 600 false))).2
      (fun n => ⟨none, Body.mk 600 false, rfl⟩) ⟨9, 9, []⟩

/-- C4 evaluation at the failing input: the dataset already contains u1 and
discovery returns u1 and u2.  Without the force flag only u2 is planned,
with forceRefresh = false, matching the claim.  With the force flag set the
plan is identical: u1 is still filtered out and nothing is routed with
forceRefresh = true, because runProductionMode never reads the forceRefresh
option it receives from the CLI --force flag. -/
theorem runProductionMode_force_ignored :
    runProductionModePlan ["u1"] ["u1"] ["u1", "u2"] false = [("u2", false)] ∧
    runProductionModePlan ["u1"] ["u1"] ["u1", "u2"] true = [("u2", false)] ∧
    runProductionModePlan ["u1"] ["u1"] ["u1", "u2"] true ≠
      [("u1", true), ("u2", true)] := by
  refine ⟨rfl, rfl, ?_⟩
  decide

/-- C6 counterexample: the claim fails as stated.  Seven urls with
batchSize 5 do give exactly the two chunks of five and two urls, but the
loop performs its pause after every chunk, so two delays occur, not one:
there is a delay after the final batch. -/
theorem batch_delay_counterexample :
    chunks 5 ["u1", "u2", "u3", "u4", "u5", "u6", "u7"] =
      [["u1", "u2", "u3", "u4", "u5"], ["u6", "u7"]] ∧
    (batchLoop (fun u => some (Profile.mk u u (0 : Nat))) 5
      ["u1", "u2", "u3", "u4", "u5", "u6", "u7"]).2 = 2 ∧
    (batchLoop (fun u => some (Profile.mk u u (0 : Nat))) 5
      ["u1", "u2", "u3", "u4", "u5", "u6", "u7"]).2 ≠ 1 := by
  refine ⟨rfl, rfl, ?_⟩
  decide

/-- C6 (amended): with a positive batchSize, the batch loop partitions the
url list into consecutive non-empty chunks of at most batchSize urls whose
concatenation is the original list, and performs exactly one inter-batch
delay per chunk, including after the final chunk. -/
theorem batch_partition_delays {α : Type} (outcome : String → Option (Profile α))
    (batchSize : Nat) (h : 0 < batchSize) (urls : List String) :
    (chunks batchSize urls).flatten = urls ∧
    (∀ c ∈ chunks batchSize urls, c ≠ [] ∧ c.length ≤ batchSize) ∧
    (batchLoop outcome batchSize urls).2 = (chunks batchSize urls).length := by
  refine ⟨chunks_flatten batchSize h urls, chunks_sizes batchSize h urls, ?_⟩
  rw [batchLoop_spec outcome batchSize h urls]

/-- C6 witness: the amended theorem applied to seven urls and batchSize 5. -/
theorem batch_partition_delays_witness :
    (0 : Nat) < 5 ∧
    ((chunks 5 ["u1", "u2", "u3", "u4", "u5", "u6", "u7"]).flatten =
      ["u1", "u2", "u3", "u4", "u5", "u6", "u7"] ∧
     (∀ c ∈ chunks 5 ["u1", "u2", "u3", "u4", "u5", "u6", "u7"], c ≠ [] ∧ c.length ≤ 5) ∧
     (batchLoop (fun u => some (Profile.mk u u (0 : Nat))) 5
       ["u1", "u2", "u3", "u4", "u5", "u6", "u7"]).2 =
       (chunks 5 ["u1", "u2", "u3", "u4", "u5", "u6", "u7"]).length) :=
  ⟨by decide,
   batch_partition_delays (fun u => some (Profile.mk u u (0 : Nat))) 5 (by decide)
     ["u1", "u2", "u3", "u4", "u5", "u6", "u7"]⟩

/-- C7: the token bucket recomputes its balance as
min(capacity, tokens + elapsed * refillRate) before the debit check, and
along any getToken call (with its waiting re-evaluations), and any
sequence of such calls, every observed balance b satisfies
0 ≤ b ≤ capacity, provided elapsed times are non-negative and the initial
balance is within bounds. -/
theorem rateLimiter_bounds (t : ℚ) (es : List ℚ) (calls : List (List ℚ))
    (h0 : 0 ≤ t) (h1 : t ≤ CONFIG.maxRequestsPerMinute)
    (he : ∀ e ∈ es, 0 ≤ e) (hc : ∀ c ∈ calls, ∀ e ∈ c, 0 ≤ e) :
    (∀ e : ℚ, refillTokens t e =
      min CONFIG.maxRequestsPerMinute (t + e * refillRate)) ∧
    (∀ s ∈ getTokenStates es t, 0 ≤ s ∧ s ≤ CONFIG.maxRequestsPerMinute) ∧
    (∀ t2, getToken es t = some t2 → 0 ≤ t2 ∧ t2 ≤ CONFIG.maxRequestsPerMinute) ∧
    (∀ t2, acquireSeq calls t = some t2 →
      0 ≤ t2 ∧ t2 ≤ CONFIG.maxRequestsPerMinute) := by
  refine ⟨fun e => rfl, getTokenStates_bounds es t h0 he, getToken_bounds es t h0 he, ?_⟩
  intro t2 hacq
  rcases acquireSeq_bounds calls t h0 hc t2 hacq with h | h
  · exact h
  · subst h
    exact ⟨h0, h1⟩

/-- C7 witness: the bounds applied to a full bucket, one observation, and a
two-call sequence. -/
theorem rateLimiter_bounds_witness :
    ((0 : ℚ) ≤ 30 ∧ (30 : ℚ) ≤ CONFIG.maxRequestsPerMinute ∧
     (∀ e ∈ [(0 : ℚ)], 0 ≤ e) ∧
     (∀ c ∈ [[(0 : ℚ)], [(0 : ℚ)]], ∀ e ∈ c, 0 ≤ e)) ∧
    ((∀ s ∈ getTokenStates [(0 : ℚ)] 30, 0 ≤ s ∧ s ≤ CONFIG.maxRequestsPerMinute) ∧
     (∀ t2, getToken [(0 : ℚ)] 30 = some t2 →
       0 ≤ t2 ∧ t2 ≤ CONFIG.maxRequestsPerMinute) ∧
     (∀ t2, acquireSeq [[(0 : ℚ)], [(0 : ℚ)]] 30 = some t2 →
       0 ≤ t2 ∧ t2 ≤ CONFIG.maxRequestsPerMinute)) :=
  ⟨⟨by norm_num, by norm_num [CONFIG.maxRequestsPerMinute], by decide, by decide⟩,
   ((rateLimiter_bounds 30 [(0 : ℚ)] [[(0 : ℚ)], [(0 : ℚ)]] (by norm_num)
     (by norm_num [CONFIG.maxRequestsPerMinute]) (by decide) (by decide)).2 : _)⟩

/-- C8: the retry backoff delay for attempt index k equals
min(retryDelay * 1.5 ^ k, 30000); it therefore never exceeds the cap, and
it is monotone non-decreasing in k. -/
theorem backoff_cap_mono (k k2 : Nat) (h : k ≤ k2) :
    backoffDelay k = min (CONFIG.retryDelay * (3 / 2) ^ k) 30000 ∧
    backoffDelay k ≤ 30000 ∧
    backoffDelay k ≤ backoffDelay k2 :=
  ⟨rfl, backoffDelay_le_cap k, backoffDelay_mono h⟩

/-- C8 witness: the backoff facts at attempt indices 1 and 3. -/
theorem backoff_cap_mono_witness :
    1 ≤ 3 ∧
    (backoffDelay 1 = min (CONFIG.retryDelay * (3 / 2) ^ 1) 30000 ∧
     backoffDelay 1 ≤ 30000 ∧
     backoffDelay 1 ≤ backoffDelay 3) :=
  ⟨by decide, backoff_cap_mono 1 3 (by decide)⟩

/-- C9: when each url settles independently (processUrl catches any failure
and yields none), the batch loop completes and returns exactly the
successful records in url order: with M of N urls failing, N − M records
are collected, and merging them into a dataset that contains none of the
fetched urls appends them all, so the dataset gains exactly N − M
records. -/
theorem batch_failures_contained {α : Type} [DecidableEq α]
    (outcome : String → Option (Profile α)) (batchSize : Nat) (h : 0 < batchSize)
    (urls : List String) (existing : List (Profile α))
    (hfresh : ∀ u ∈ urls, ∀ p, outcome u = some p →
      p.profileUrl ∉ profileUrls existing) :
    (batchLoop outcome batchSize urls).1 = urls.filterMap outcome ∧
    (batchLoop outcome batchSize urls).1.length +
      (urls.filter (fun u => (outcome u).isNone)).length = urls.length ∧
    mergeProfiles existing (batchLoop outcome batchSize urls).1 =
      existing ++ (batchLoop outcome batchSize urls).1 := by
  have hbs := batchLoop_spec outcome batchSize h urls
  refine ⟨by rw [hbs], ?_, ?_⟩
  · rw [hbs]
    exact length_filterMap_add_none outcome urls
  · apply mergeProfiles_all_new
    intro r hr
    rw [hbs] at hr
    obtain ⟨u, hu, hru⟩ := List.mem_filterMap.mp hr
    exact hfresh u hu r hru

/-- C9 witness: three urls of which one fails permanently, merged into the
empty dataset: two records are gained. -/
theorem batch_failures_contained_witness :
    ((0 : Nat) < 5 ∧
     (∀ u ∈ ["u1", "u2", "u3"], ∀ p : Profile Nat,
       (fun v => if v == "u3" then none else some (Profile.mk v v (0 : Nat))) u = some p →
       p.profileUrl ∉ profileUrls ([] : List (Profile Nat)))) ∧
    ((batchLoop (fun v => if v == "u3" then none else some (Profile.mk v v (0 : Nat))) 5
        ["u1", "u2", "u3"]).1 =
      ["u1", "u2", "u3"].filterMap
        (fun v => if v == "u3" then none else some (Profile.mk v v (0 : Nat))) ∧
     (batchLoop (fun v => if v == "u3" then none else some (Profile.mk v v (0 : Nat))) 5
        ["u1", "u2", "u3"]).1.length +
       (["u1", "u2", "u3"].filter (fun u =>
         ((fun v => if v == "u3" then none else some (Profile.mk v v (0 : Nat))) u).isNone)).length =
       ["u1", "u2", "u3"].length ∧
     mergeProfiles ([] : List (Profile Nat))
       (batchLoop (fun v => if v == "u3" then none else some (Profile.mk v v (0 : Nat))) 5
         ["u1", "u2", "u3"]).1 =
       ([] : List (Profile Nat)) ++
         (batchLoop (fun v => if v == "u3" then none else some (Profile.mk v v (0 : Nat))) 5
           ["u1", "u2", "u3"]).1) :=
  ⟨⟨by decide, fun u hu p hp => by simp [profileUrls]⟩,
   batch_failures_contained
     (fun v => if v == "u3" then none else some (Profile.mk v v (0 : Nat))) 5 (by decide)
     ["u1", "u2", "u3"] ([] : List (Profile Nat))
     (fun u hu p hp => by simp [profileUrls])⟩

end Claims

end KD
